import Mathlib

/-!
Shallow embedding of `src/Kaleidoscope/toy.cpp`: a Kaleidoscope REPL with an
MCJIT-style multi-module execution engine.  Characters are modelled as Lean
`Char`, the C `int` character channel (which also carries `EOF = -1`) as `Int`,
and `double` values as `ℚ` (all numeric literals appearing in the verified
scenarios are exactly representable, so rational arithmetic coincides with the
IEEE double arithmetic the program performs on them).
-/

namespace Toy

/-- Character classification mirroring C `isspace` on ASCII input. -/
def isSpaceI (c : Int) : Bool :=
  c = 32 || c = 9 || c = 10 || c = 11 || c = 12 || c = 13

/-- Character classification mirroring C `isalpha` on ASCII input. -/
def isAlphaI (c : Int) : Bool :=
  (65 ≤ c && c ≤ 90) || (97 ≤ c && c ≤ 122)

/-- Character classification mirroring C `isdigit` on ASCII input. -/
def isDigitI (c : Int) : Bool :=
  48 ≤ c && c ≤ 57

/-- Character classification mirroring C `isalnum` on ASCII input. -/
def isAlnumI (c : Int) : Bool :=
  isAlphaI c || isDigitI c

/-- Tokens returned by `gettok` (the `Token` enum; any other single character
is returned verbatim, modelled by `punct`). -/
inductive Tok where
  | eof : Tok
  | kwDef : Tok
  | kwExt : Tok
  | ident : String → Tok
  | num : ℚ → Tok
  | punct : Char → Tok
deriving DecidableEq, Repr

/-- Lexer state: `lastChar` is the C `static int LastChar` (with `-1` for
`EOF`), `input` is the remainder of the character stream fed to `getchar`.
Once the stream is exhausted `getchar` keeps returning `EOF`, exactly as a
closed `stdin` does. -/
structure LexState where
  lastChar : Int
  input : List Char
deriving DecidableEq, Repr

/-- Model of `getchar()`: pop the next character, or return `EOF` forever once
the input is exhausted. -/
def getcharM : List Char → Int × List Char
  | [] => (-1, [])
  | c :: r => ((c.toNat : Int), r)

/-- The whitespace-skipping loop `while(isspace(LastChar)) LastChar = getchar();`. -/
def skipSpaces : Int → List Char → Int × List Char
  | lc, [] => if isSpaceI lc then (-1, []) else (lc, [])
  | lc, c :: r => if isSpaceI lc then skipSpaces (c.toNat : Int) r else (lc, c :: r)

/-- The identifier loop `while(isalnum(LastChar = getchar())) IdentifierStr += LastChar;`:
returns the accumulated identifier text, the first non-alphanumeric character
and the remaining input. -/
def readIdent : String → List Char → String × Int × List Char
  | acc, [] => (acc, -1, [])
  | acc, c :: r =>
    if isAlnumI (c.toNat : Int) then readIdent (acc.push c) r
    else (acc, (c.toNat : Int), r)

/-- The number loop `do { NumStr += LastChar; LastChar = getchar(); } while(isdigit || '.')`:
`lc` is known to be a digit or `.` on entry (do-while body runs first). -/
def readNum : String → Int → List Char → String × Int × List Char
  | acc, lc, [] => (acc.push (Char.ofNat lc.toNat), -1, [])
  | acc, lc, c :: r =>
    if isDigitI (c.toNat : Int) || c = '.' then
      readNum (acc.push (Char.ofNat lc.toNat)) (c.toNat : Int) r
    else (acc.push (Char.ofNat lc.toNat), (c.toNat : Int), r)

/-- The comment loop `do LastChar = getchar(); while (≠ EOF, '\n', '\r')`. -/
def readLineRest : List Char → Int × List Char
  | [] => (-1, [])
  | c :: r =>
    if (c.toNat : Int) = 10 || (c.toNat : Int) = 13 then ((c.toNat : Int), r)
    else readLineRest r

/-- Leading run of decimal digits of a character list, and the rest. -/
def takeDigits : List Char → List Char × List Char
  | [] => ([], [])
  | c :: r =>
    if c.isDigit then
      let (ds, rest) := takeDigits r
      (c :: ds, rest)
    else ([], c :: r)

/-- Value of a digit string. -/
def natOfDigits (ds : List Char) : Nat :=
  ds.foldl (fun a c => 10 * a + (c.toNat - 48)) 0

/-- Model of `strtod` restricted to the strings the lexer feeds it (digits and
dots): an integer part, then — after at most one dot — a fraction part;
conversion stops at the second dot, as `strtod` does. -/
def strtodQ (s : String) : ℚ :=
  let (ip, rest) := takeDigits s.data
  let ipv : ℚ := (natOfDigits ip : ℚ)
  match rest with
  | '.' :: r =>
    let (fp, _) := takeDigits r
    ipv + (natOfDigits fp : ℚ) / ((10 : ℚ) ^ fp.length)
  | _ => ipv

/-- One step of the lexer `gettok`, fuelled: the only non-structural recursion
in the source is the tail call after a line comment, which always consumes at
least one input character, so `input.length + 1` fuel always suffices (see
`gettok`). Fuel `0` is never reached from `gettok`. -/
def gettokF : Nat → LexState → Tok × LexState
  | 0, st => (Tok.eof, st)
  | fuel + 1, st =>
    let (lc, inp) := skipSpaces st.lastChar st.input
    if isAlphaI lc then
      -- identifier: [a-zA-Z][a-zA-Z0-9]*
      let (idStr, lc', inp') := readIdent (String.mk [Char.ofNat lc.toNat]) inp
      let t := if idStr = "def" then Tok.kwDef
               else if idStr = "extern" then Tok.kwExt
               else Tok.ident idStr
      (t, ⟨lc', inp'⟩)
    else if isDigitI lc || lc = 46 then
      -- number: [0-9.]+
      let (numStr, lc', inp') := readNum "" lc inp
      (Tok.num (strtodQ numStr), ⟨lc', inp'⟩)
    else if lc = 35 then
      -- '#' comment until end of line
      let (lc', inp') := readLineRest inp
      if lc' ≠ -1 then gettokF fuel ⟨lc', inp'⟩
      else (Tok.eof, ⟨lc', inp'⟩)
    else if lc = -1 then (Tok.eof, ⟨lc, inp⟩)
    else
      let (nc, inp') := getcharM inp
      (Tok.punct (Char.ofNat lc.toNat), ⟨nc, inp'⟩)

/-- Model of `gettok()`: runs `gettokF` with enough fuel for any input. -/
def gettok (st : LexState) : Tok × LexState :=
  gettokF (st.input.length + 1) st

/-- Initial lexer state: `LastChar` starts as `' '` (code 32). -/
def initLexState (s : String) : LexState := ⟨32, s.data⟩

/-- Iterated calls to `gettok`: `gettokN n st` is the result of the `(n+1)`-th
call to `gettok` starting from state `st`. -/
def gettokN : Nat → LexState → Tok × LexState
  | 0, st => gettok st
  | n + 1, st => gettokN n (gettok st).2

/-- Tokenize a whole input: call `gettok` repeatedly until it yields the
end-of-input token, which is kept as the final element (the parser's `CurTok`
stream). The fuel bound `input.length + 2` suffices because every call that
does not return `eof` consumes at least one character or ends the stream. -/
def tokenizeF : Nat → LexState → List Tok
  | 0, _ => []
  | fuel + 1, st =>
    match gettok st with
    | (Tok.eof, _) => [Tok.eof]
    | (t, st') => t :: tokenizeF fuel st'

/-- Token stream of a source string. -/
def tokens (s : String) : List Tok :=
  tokenizeF (s.length + 2) (initLexState s)

/-- Expression AST (`NumberExprAST`, `VariableExprAST`, `BinaryExprAST`,
`CallExprAST`). -/
inductive ExprAST where
  | number : ℚ → ExprAST
  | var : String → ExprAST
  | binary : Char → ExprAST → ExprAST → ExprAST
  | call : String → List ExprAST → ExprAST
deriving Repr

/-- Prototype AST: a function name and its parameter names. -/
structure PrototypeAST where
  name : String
  args : List String
deriving DecidableEq, Repr

/-- Function definition AST: a prototype and a single-expression body. -/
structure FunctionAST where
  proto : PrototypeAST
  body : ExprAST
deriving Repr

/-- The precedence table installed by `main`: `'<'→10, '+'→20, '-'→30, '*'→40`;
`std::map::operator[]` yields `0` for any other key. -/
def binopPrecedence (c : Char) : Int :=
  if c = '<' then 10
  else if c = '+' then 20
  else if c = '-' then 30
  else if c = '*' then 40
  else 0

/-- Model of `GetTokPrecedence()` on the current token: `-1` unless the token
is an ASCII character with a positive table entry. -/
def getTokPrecedence : Tok → Int
  | Tok.punct c =>
    if 128 ≤ (c.toNat : Int) then -1
    else
      let p := binopPrecedence c
      if p ≤ 0 then -1 else p
  | _ => -1

/-- Precedence of the current lookahead of a token stream (an empty stream
behaves like end-of-input). -/
def curPrec (ts : List Tok) : Int :=
  match ts with
  | [] => -1
  | t :: _ => getTokPrecedence t

mutual

/-- Model of `ParsePrimary` (and, inlined, `ParseIdentifierExpr`,
`ParseNumberExpr`, `ParseParenExpr`): parse one primary expression from the
token stream, returning it and the unconsumed rest. Fuel bounds the recursion
through nested expressions; parse errors return `none`. -/
def parsePrimary : Nat → List Tok → Option (ExprAST × List Tok)
  | 0, _ => none
  | fuel + 1, ts =>
    match ts with
    | Tok.ident idName :: rest =>
      -- ParseIdentifierExpr: a '(' lookahead makes it a call
      match rest with
      | Tok.punct '(' :: rest₂ =>
        match rest₂ with
        | Tok.punct ')' :: rest₃ => some (ExprAST.call idName [], rest₃)
        | _ =>
          match parseArgsLoop fuel rest₂ with
          | none => none
          | some (args, rest₃) => some (ExprAST.call idName args, rest₃)
      | _ => some (ExprAST.var idName, rest)
    | Tok.num v :: rest => some (ExprAST.number v, rest)
    | Tok.punct '(' :: rest =>
      match parseExpression fuel rest with
      | none => none
      | some (e, rest₂) =>
        match rest₂ with
        | Tok.punct ')' :: rest₃ => some (e, rest₃)
        | _ => none
    | _ => none

/-- The argument-list loop of `ParseIdentifierExpr`: parse one expression,
then stop at `')'`, continue past `','`, and fail otherwise. -/
def parseArgsLoop : Nat → List Tok → Option (List ExprAST × List Tok)
  | 0, _ => none
  | fuel + 1, ts =>
    match parseExpression fuel ts with
    | none => none
    | some (arg, rest) =>
      match rest with
      | Tok.punct ')' :: rest₂ => some ([arg], rest₂)
      | Tok.punct ',' :: rest₂ =>
        match parseArgsLoop fuel rest₂ with
        | none => none
        | some (args, rest₃) => some (arg :: args, rest₃)
      | _ => none

/-- Model of `ParseBinOpRHS(ExprPrec, LHS)`: the precedence-climbing loop.
Each loop iteration of the source is one fuelled recursive call. -/
def parseBinOpRHS : Nat → Int → ExprAST → List Tok → Option (ExprAST × List Tok)
  | 0, _, _, _ => none
  | fuel + 1, prec, lhs, ts =>
    let tokPrec := curPrec ts
    if tokPrec < prec then some (lhs, ts)
    else
      match ts with
      | Tok.punct op :: rest =>
        match parsePrimary fuel rest with
        | none => none
        | some (rhs, rest₂) =>
          let nextPrec := curPrec rest₂
          if tokPrec < nextPrec then
            match parseBinOpRHS fuel (tokPrec + 1) rhs rest₂ with
            | none => none
            | some (rhs', rest₃) =>
              parseBinOpRHS fuel prec (ExprAST.binary op lhs rhs') rest₃
          else
            parseBinOpRHS fuel prec (ExprAST.binary op lhs rhs) rest₂
      | _ => none

/-- Model of `ParseExpression`: a primary followed by the binop-RHS loop with
minimum precedence `0`. -/
def parseExpression : Nat → List Tok → Option (ExprAST × List Tok)
  | 0, _ => none
  | fuel + 1, ts =>
    match parsePrimary fuel ts with
    | none => none
    | some (lhs, rest) => parseBinOpRHS fuel 0 lhs rest

end

/-- Parameter-name run of `ParsePrototype`'s `while(getNextToken() == tok_identifier)`. -/
def collectParams : List Tok → List String × List Tok
  | Tok.ident a :: rest =>
    let (as_, rest₂) := collectParams rest
    (a :: as_, rest₂)
  | ts => ([], ts)

/-- Model of `ParsePrototype`: an identifier, `'('`, parameter identifiers,
`')'`. -/
def parsePrototype (ts : List Tok) : Option (PrototypeAST × List Tok) :=
  match ts with
  | Tok.ident fnName :: Tok.punct '(' :: rest =>
    let (argNames, rest₂) := collectParams rest
    match rest₂ with
    | Tok.punct ')' :: rest₃ => some (⟨fnName, argNames⟩, rest₃)
    | _ => none
  | _ => none

/-- Model of `ParseDefinition`: the `def` keyword, a prototype, then a single
expression body. -/
def parseDefinition (fuel : Nat) (ts : List Tok) : Option (FunctionAST × List Tok) :=
  match ts with
  | Tok.kwDef :: rest =>
    match parsePrototype rest with
    | none => none
    | some (proto, rest₂) =>
      match parseExpression fuel rest₂ with
      | none => none
      | some (body, rest₃) => some (⟨proto, body⟩, rest₃)
  | _ => none

/-- Model of `ParseTopLevelExpr`: an expression wrapped in a `FunctionAST`
whose prototype has an empty name and no parameters. -/
def parseTopLevelExpr (fuel : Nat) (ts : List Tok) : Option (FunctionAST × List Tok) :=
  match parseExpression fuel ts with
  | none => none
  | some (e, rest) => some (⟨⟨"", []⟩, e⟩, rest)

/-- Token form of a chain of binary operators applied to number literals:
`op₁ v₁ op₂ v₂ …` (following some initial left-hand side). -/
def chainToks (pairs : List (Char × ℚ)) : List Tok :=
  pairs.flatMap (fun pr => [Tok.punct pr.1, Tok.num pr.2])

/-- The left-associated tree for such a chain:
`((lhs op₁ v₁) op₂ v₂) …`. -/
def chainFold (lhs : ExprAST) (pairs : List (Char × ℚ)) : ExprAST :=
  pairs.foldl (fun l pr => ExprAST.binary pr.1 l (ExprAST.number pr.2)) lhs

/-- Lowered IR values: the instructions `Codegen` emits through the builder.
A value is a floating-point constant, a reference to the `i`-th argument of
the enclosing function, an arithmetic instruction, an unsigned-less-than
comparison followed by a conversion back to double (`CreateFCmpULT` plus
`CreateUIToFP`), or a call instruction referencing its callee by symbol
name. -/
inductive IRExpr where
  | constFP : ℚ → IRExpr
  | arg : Nat → IRExpr
  | fadd : IRExpr → IRExpr → IRExpr
  | fsub : IRExpr → IRExpr → IRExpr
  | fmul : IRExpr → IRExpr → IRExpr
  | fcmpULT : IRExpr → IRExpr → IRExpr
  | callInst : String → List IRExpr → IRExpr
deriving Repr

/-- A function entry of a module: its symbol name, its arity (all parameters
and the result have the single double type), and its optional lowered body
(`none` is a declaration, `F->empty()` in the source). -/
structure Fn where
  name : String
  arity : Nat
  body : Option IRExpr
deriving Repr

/-- A module is its ordered list of function entries. -/
abbrev ModuleM := List Fn

/-- State of the `MCJITHelper`, the generator globals and the diagnostic
stream: `modules` is the helper's `Modules` vector (creation order, entries
addressed by index in place of pointers), `openIdx` is `OpenModule`,
`engines` lists the indices of modules given to an `ExecutionEngine`, in
finalization order, `anonCounter` is `GenerateUniqueName`'s shared static
counter, `namedValues` is the generator's `NamedValues` map, and `log`
collects the messages printed by `Error`/`ErrorV`/`ErrorF` in order. -/
structure JITState where
  modules : List ModuleM
  openIdx : Option Nat
  engines : List Nat
  anonCounter : Nat
  namedValues : String → Option IRExpr
  log : List String

/-- Outcome of a source routine returning a pointer: a returned value
(`none` models a null return) together with the updated state, or `crash`
for a failed `assert` or undefined behavior (null dereference, iterator past
the end). -/
inductive Res (α : Type) where
  | ret : Option α → JITState → Res α
  | crash : Res α

/-- Append a diagnostic to the log (the `Error` helper family). -/
def addLog (s : JITState) (msg : String) : JITState :=
  {s with log := s.log ++ [msg]}

/-- Reference to a function entry: its module index and its symbol name
(module symbol names are unique, so this identifies the entry as a pointer
would). -/
abbrev FnRef := Nat × String

/-- Lookup of `Module::getFunction(name)`. -/
def moduleFind (m : ModuleM) (name : String) : Option Fn :=
  m.find? (fun f => f.name = name)

/-- Function entry a reference points at. -/
def fnAt (s : JITState) (fref : FnRef) : Option Fn :=
  moduleFind (s.modules.getD fref.1 []) fref.2

/-- Model of `GenerateUniqueName(root)`: append the shared counter and bump
it. -/
def generateUniqueName (root : String) (counter : Nat) : String × Nat :=
  (root ++ toString counter, counter + 1)

/-- Legal identifier characters of `MakeLegalFunctionName`
(underscore, letters, digits). -/
def isLegalElem (c : Char) : Bool :=
  c = '_' || c.isAlpha || c.isDigit

/-- Name sanitation of `MakeLegalFunctionName` for a nonempty name: prepend
`'n'` if the name starts with a digit, then rewrite every character outside
the legal set to its decimal character code. The source replaces the first
illegal character repeatedly; since each replacement consists only of digits
(legal), that loop performs exactly this pointwise rewriting. -/
def legalizeName (name : String) : String :=
  let startsDigit := match name.data with
    | [] => false
    | c :: _ => c.isDigit
  let base := if startsDigit then 'n' :: name.data else name.data
  String.mk (base.flatMap (fun c => if isLegalElem c then [c] else (toString c.toNat).data))

/-- Model of `MakeLegalFunctionName`: an empty name becomes a generated
unique anonymous name (consuming the counter); a nonempty name is
sanitized. -/
def makeLegalFunctionName (name : String) (counter : Nat) : String × Nat :=
  if name = "" then generateUniqueName "anon_func_" counter
  else (legalizeName name, counter)

/-- Model of `MCJITHelper::getModuleForNewFunction`: return the open module,
creating (and opening) a fresh empty one — with a generated name, which
bumps the shared counter — if none is open. -/
def getModuleForNewFunction (s : JITState) : Nat × JITState :=
  match s.openIdx with
  | some oi => (oi, s)
  | none =>
    (s.modules.length,
     {s with anonCounter := s.anonCounter + 1,
             modules := s.modules ++ [[]],
             openIdx := some s.modules.length})

/-- The scan loop of `MCJITHelper::getFunction`: walk the module vector
oldest to newest looking for `fnName`; `i` is the index of the first module
of `rest` within `s.modules`. On a hit in the open module the entry is
returned directly; on a hit in a closed module the open module must exist
(`assert(OpenModule != NULL)` — `crash` otherwise), an existing entry there
with a body is a cross-module redefinition error, an existing body-less
entry is reused, and otherwise a matching external declaration is appended
to the open module and returned. -/
def getFnScan (s : JITState) (fnName : String) : Nat → List ModuleM → Res FnRef
  | _, [] => Res.ret none s
  | i, m :: rest =>
    match moduleFind m fnName with
    | none => getFnScan s fnName (i + 1) rest
    | some f =>
      if s.openIdx = some i then Res.ret (some (i, fnName)) s
      else
        match s.openIdx with
        | none => Res.crash
        | some oi =>
          match moduleFind (s.modules.getD oi []) fnName with
          | some pf =>
            if pf.body.isSome then
              Res.ret none (addLog s "redefinition of function across modules")
            else Res.ret (some (oi, fnName)) s
          | none =>
            Res.ret (some (oi, fnName))
              {s with modules :=
                s.modules.set oi ((s.modules.getD oi []) ++ [(⟨fnName, f.arity, none⟩ : Fn)])}

/-- Model of `MCJITHelper::getFunction(FnName)`. -/
def getFunctionJIT (s : JITState) (fnName : String) : Res FnRef :=
  getFnScan s fnName 0 s.modules

/-- The parameter-binding loop of `PrototypeAST::Codegen`: for each index
`Idx` below `Args.size()`, name the `Idx`-th argument and insert it into
`NamedValues` (later insertions overwrite earlier ones, as `std::map`
assignment does). `i` is the index of the first element of `args`. -/
def bindParamsFrom (env : String → Option IRExpr) : List String → Nat → (String → Option IRExpr)
  | [], _ => env
  | a :: rest, i =>
    bindParamsFrom (fun n => if n = a then some (IRExpr.arg i) else env n) rest (i + 1)

/-- Model of `PrototypeAST::Codegen`. `Function::Create` keeps the requested
name only when no entry of that name exists in the module; otherwise the new
function is renamed, detected by the `getName() != FnName` check, erased
again, and the name is looked up across modules (with the unsanitized
`Name`). An existing entry with a body is a redefinition error; an arity
mismatch logs its diagnostic but — the early return is missing in the
source — lowering falls through to the parameter-binding loop and still
returns the existing function; if that function has fewer arguments than the
new prototype the binding loop walks its argument iterator past the end
(`crash`). -/
def protoCodegen (s : JITState) (proto : PrototypeAST) : Res FnRef :=
  let fnName := (makeLegalFunctionName proto.name s.anonCounter).1
  let s0 := {s with anonCounter := (makeLegalFunctionName proto.name s.anonCounter).2}
  let mIdx := (getModuleForNewFunction s0).1
  let s1 := (getModuleForNewFunction s0).2
  let m := s1.modules.getD mIdx []
  match moduleFind m fnName with
  | none =>
    let s2 := {s1 with modules := s1.modules.set mIdx (m ++ [(⟨fnName, proto.args.length, none⟩ : Fn)])}
    Res.ret (some (mIdx, fnName))
      {s2 with namedValues := bindParamsFrom s2.namedValues proto.args 0}
  | some _ =>
    match getFunctionJIT s1 proto.name with
    | Res.crash => Res.crash
    | Res.ret none _ => Res.crash      -- F is null here; `F->empty()` dereferences it
    | Res.ret (some fref) s2 =>
      match fnAt s2 fref with
      | none => Res.crash
      | some f =>
        if f.body.isSome then
          Res.ret none (addLog s2 "redefinition of function")
        else
          let s3 := if f.arity ≠ proto.args.length then
                      addLog s2 "redefinition of function with different # args"
                    else s2
          if f.arity < proto.args.length then Res.crash
          else Res.ret (some fref)
                 {s3 with namedValues := bindParamsFrom s3.namedValues proto.args 0}

mutual

/-- Model of the `Codegen` methods of the expression nodes.  A number is a
constant; a variable is looked up in `NamedValues` (null plus a diagnostic
if absent); a binary operator lowers its left then — unconditionally — its
right operand, returns null if either was null, and otherwise emits the
operation; a call resolves its callee through `MCJITHelper::getFunction`,
checks the arity, then lowers the arguments in order, aborting at the first
failure. -/
def codegenE : JITState → ExprAST → Res IRExpr
  | s, ExprAST.number v => Res.ret (some (IRExpr.constFP v)) s
  | s, ExprAST.var name =>
    match s.namedValues name with
    | some v => Res.ret (some v) s
    | none => Res.ret none (addLog s "Unknown variable name")
  | s, ExprAST.binary op l r =>
    match codegenE s l with
    | Res.crash => Res.crash
    | Res.ret lv s1 =>
      match codegenE s1 r with
      | Res.crash => Res.crash
      | Res.ret rv s2 =>
        match lv, rv with
        | some lval, some rval =>
          if op = '+' then Res.ret (some (IRExpr.fadd lval rval)) s2
          else if op = '-' then Res.ret (some (IRExpr.fsub lval rval)) s2
          else if op = '*' then Res.ret (some (IRExpr.fmul lval rval)) s2
          else if op = '<' then Res.ret (some (IRExpr.fcmpULT lval rval)) s2
          else Res.ret none (addLog s2 "invalid binary operator")
        | _, _ => Res.ret none s2
  | s, ExprAST.call callee argEs =>
    match getFunctionJIT s callee with
    | Res.crash => Res.crash
    | Res.ret none s1 => Res.ret none (addLog s1 "Unknown function referenced")
    | Res.ret (some fref) s1 =>
      match fnAt s1 fref with
      | none => Res.crash
      | some f =>
        if f.arity ≠ argEs.length then
          Res.ret none (addLog s1 "Incorrect # arguments passed")
        else
          match codegenArgs s1 argEs with
          | Res.crash => Res.crash
          | Res.ret none s2 => Res.ret none s2
          | Res.ret (some argVs) s2 =>
            Res.ret (some (IRExpr.callInst fref.2 argVs)) s2

/-- The argument-lowering loop of `CallExprAST::Codegen`: lower each argument
in order, returning null as soon as one fails. -/
def codegenArgs : JITState → List ExprAST → Res (List IRExpr)
  | s, [] => Res.ret (some []) s
  | s, e :: rest =>
    match codegenE s e with
    | Res.crash => Res.crash
    | Res.ret none s1 => Res.ret none s1
    | Res.ret (some v) s1 =>
      match codegenArgs s1 rest with
      | Res.crash => Res.crash
      | Res.ret none s2 => Res.ret none s2
      | Res.ret (some vs) s2 => Res.ret (some (v :: vs)) s2

end

/-- Clearing of the generator's variable environment (`NamedValues.clear()`). -/
def clearEnv (s : JITState) : JITState :=
  {s with namedValues := fun _ => none}

/-- Model of `Function::eraseFromParent`: remove the referenced entry from
its module. Module symbol names are unique (`Function::Create` renames on
collision), so removing the function is filtering out its name. -/
def eraseFn (s : JITState) (fref : FnRef) : JITState :=
  {s with modules :=
    s.modules.set fref.1 ((s.modules.getD fref.1 []).filter (fun f => f.name ≠ fref.2))}

/-- Attach the lowered, returned body to the referenced entry
(`CreateRet` on the entry block plus `verifyFunction`). -/
def setBody (s : JITState) (fref : FnRef) (b : IRExpr) : JITState :=
  {s with modules :=
    s.modules.set fref.1 ((s.modules.getD fref.1 []).map
      (fun f => if f.name = fref.2 then {f with body := some b} else f))}

/-- Model of `FunctionAST::Codegen`: clear `NamedValues`, lower the
prototype, lower the body in a fresh entry block, and either return the
function with its body attached, or erase the partially created function and
fail. -/
def functionCodegen (s : JITState) (fa : FunctionAST) : Res FnRef :=
  match protoCodegen (clearEnv s) fa.proto with
  | Res.crash => Res.crash
  | Res.ret none s1 => Res.ret none s1
  | Res.ret (some fref) s1 =>
    match codegenE s1 fa.body with
    | Res.crash => Res.crash
    | Res.ret (some retVal) s2 => Res.ret (some fref) (setBody s2 fref retVal)
    | Res.ret none s2 => Res.ret none (eraseFn s2 fref)

/-- Whether a reference points at a function with a body. -/
def fnBodied (s : JITState) (fref : FnRef) : Bool :=
  match fnAt s fref with
  | some f => f.body.isSome
  | none => false

/-- Model of `MCJITHelper::getPointerToFunction`: an existing engine yields
an address only for a function its own finalized module defines; otherwise,
if a module is open, run the function passes over it (semantics-preserving,
the identity here), close it, finalize a fresh engine for it and look the
function up there; with no open module the result is null. The returned
flag is whether a non-null address was produced. -/
def getPointerToFunctionM (s : JITState) (fref : FnRef) : JITState × Bool :=
  if s.engines.contains fref.1 && fnBodied s fref then (s, true)
  else
    match s.openIdx with
    | some oi =>
      let s' := {s with openIdx := none, engines := s.engines ++ [oi]}
      (s', (oi == fref.1) && fnBodied s' fref)
    | none => (s, false)

/-- Runtime symbol resolution for a call instruction executing in module
`curMod`: a definition in the instruction's own module binds locally;
otherwise the symbol is resolved as `HelpingMemoryManager::getSymbolAddress`
does, by scanning the finalized engines oldest to newest for a module that
defines the name (an overall failure is `report_fatal_error`; no external
process symbols are modelled). -/
def resolveCall (mods : List ModuleM) (engines : List Nat) (curMod : Nat)
    (name : String) : Option (Nat × Fn) :=
  let scanEngines : Option (Nat × Fn) :=
    engines.findSome? (fun i =>
      match moduleFind (mods.getD i []) name with
      | some f => if f.body.isSome then some (i, f) else none
      | none => none)
  match moduleFind (mods.getD curMod []) name with
  | some f => if f.body.isSome then some (curMod, f) else scanEngines
  | none => scanEngines

mutual

/-- Execution of finalized code: evaluate an IR expression in module
`curMod` with argument vector `argv`. Fuel bounds call depth; `none` is
fuel exhaustion, an out-of-range argument, or an unresolvable callee. -/
def evalIR (mods : List ModuleM) (engines : List Nat) :
    Nat → Nat → List ℚ → IRExpr → Option ℚ
  | 0, _, _, _ => none
  | fuel + 1, curMod, argv, e =>
    match e with
    | IRExpr.constFP q => some q
    | IRExpr.arg i => argv.get? i
    | IRExpr.fadd a b =>
      match evalIR mods engines fuel curMod argv a, evalIR mods engines fuel curMod argv b with
      | some x, some y => some (x + y)
      | _, _ => none
    | IRExpr.fsub a b =>
      match evalIR mods engines fuel curMod argv a, evalIR mods engines fuel curMod argv b with
      | some x, some y => some (x - y)
      | _, _ => none
    | IRExpr.fmul a b =>
      match evalIR mods engines fuel curMod argv a, evalIR mods engines fuel curMod argv b with
      | some x, some y => some (x * y)
      | _, _ => none
    | IRExpr.fcmpULT a b =>
      match evalIR mods engines fuel curMod argv a, evalIR mods engines fuel curMod argv b with
      | some x, some y => some (if x < y then 1 else 0)
      | _, _ => none
    | IRExpr.callInst name argIRs =>
      match evalIRArgs mods engines fuel curMod argv argIRs with
      | none => none
      | some vals =>
        match resolveCall mods engines curMod name with
        | none => none
        | some (defMod, f) =>
          match f.body with
          | none => none
          | some b => evalIR mods engines fuel defMod vals b

/-- Evaluation of a call's argument expressions, left to right. -/
def evalIRArgs (mods : List ModuleM) (engines : List Nat) :
    Nat → Nat → List ℚ → List IRExpr → Option (List ℚ)
  | 0, _, _, _ => none
  | fuel + 1, curMod, argv, es =>
    match es with
    | [] => some []
    | e :: rest =>
      match evalIR mods engines fuel curMod argv e,
            evalIRArgs mods engines fuel curMod argv rest with
      | some v, some vs => some (v :: vs)
      | _, _ => none

end

/-- Model of `HandleTopLevelExpression` after parsing: lower the synthesized
anonymous function, obtain a callable address — finalizing the open unit —
and run it; the value printed is the returned rational. A null address is
called through anyway by the source (`crash`). -/
def handleTopLevelExpression (evalFuel : Nat) (s : JITState) (fa : FunctionAST) :
    Res (Option ℚ) :=
  match functionCodegen s fa with
  | Res.crash => Res.crash
  | Res.ret none s1 => Res.ret none s1
  | Res.ret (some fref) s1 =>
    let (s2, found) := getPointerToFunctionM s1 fref
    if found then
      match fnAt s2 fref with
      | some f =>
        match f.body with
        | some b =>
          Res.ret (some (evalIR s2.modules s2.engines evalFuel fref.1 [] b)) s2
        | none => Res.crash
      | none => Res.crash
    else Res.crash

/-- The initial state of `main`: no modules, nothing open, no engines, the
unique-name counter at zero, an empty variable environment. -/
def initJITState : JITState :=
  ⟨[], none, [], 0, fun _ => none, []⟩

/-- The returned value of a routine's outcome (`none` for null or crash). -/
def Res.val {α : Type} : Res α → Option α
  | Res.ret v _ => v
  | Res.crash => none

/-- The state after a routine's outcome (the fallback is only used for
`crash`, which no verified scenario reaches). -/
def Res.stateD {α : Type} (dflt : JITState) : Res α → JITState
  | Res.ret _ s => s
  | Res.crash => dflt

/-- Whether a routine returned a non-null result. -/
def Res.ok {α : Type} : Res α → Bool
  | Res.ret (some _) _ => true
  | _ => false

/-- The definition `def testfunc(x) x*x`, as parsed. -/
def tfDef : FunctionAST :=
  ⟨⟨"testfunc", ["x"]⟩, ExprAST.binary '*' (ExprAST.var "x") (ExprAST.var "x")⟩

/-- The top-level expression `testfunc(4)`, as parsed (wrapped in the
anonymous nullary prototype). -/
def tfCall : FunctionAST :=
  ⟨⟨"", []⟩, ExprAST.call "testfunc" [ExprAST.number 4]⟩

/-- State after lowering `def testfunc(x) x*x` into a fresh session. -/
def tfS1 : JITState := (functionCodegen initJITState tfDef).stateD initJITState

/-- Outcome of running the bare expression `testfunc(4)` the first time
(caller and callee in the same unit; finalizes the unit). -/
def tfRun1 : Res (Option ℚ) := handleTopLevelExpression 8 tfS1 tfCall

/-- State after the first run: the first unit is closed and finalized. -/
def tfS2 : JITState := tfRun1.stateD initJITState

/-- Outcome of running `testfunc(4)` again: the call is lowered into a newly
opened unit and bridged to the closed unit's body. -/
def tfRun2 : Res (Option ℚ) := handleTopLevelExpression 8 tfS2 tfCall

/-- State after the second run. -/
def tfS3 : JITState := tfRun2.stateD initJITState

/-- State with the body-less two-parameter declaration `foo(x y)` lowered
into a fresh session (as `extern foo(x y)` would leave it). -/
def fooDecl2 : JITState :=
  (protoCodegen initJITState ⟨"foo", ["x", "y"]⟩).stateD initJITState

/-- Lowering the one-parameter prototype `foo(a)` on top of the body-less
`foo(x y)`: the arity-mismatch path of `PrototypeAST::Codegen`. -/
def fooRedecl1 : Res FnRef := protoCodegen fooDecl2 ⟨"foo", ["a"]⟩

/-- State with one closed, finalized module defining `foo` and no open
module (as the session leaves things right after running a bare
expression). -/
def closedFooState : JITState :=
  ⟨[[⟨"foo", 1, some (IRExpr.arg 0)⟩]], none, [0], 1, fun _ => none, []⟩

/-- Codegen of `y+z` with an empty variable environment: both operand
lowerings fail. -/
def c7Bin : Res IRExpr :=
  codegenE initJITState (ExprAST.binary '+' (ExprAST.var "y") (ExprAST.var "z"))

/-- The definition `def f(x) y`, whose body references an unknown
variable. -/
def fBadDef : FunctionAST := ⟨⟨"f", ["x"]⟩, ExprAST.var "y"⟩

/-- Intermediate state of lowering `fBadDef`: after its prototype lowered. -/
def fBadS1 : JITState :=
  (protoCodegen (clearEnv initJITState) fBadDef.proto).stateD initJITState

/-- Intermediate state of lowering `fBadDef`: after its body lowering
failed. -/
def fBadS2 : JITState := (codegenE fBadS1 fBadDef.body).stateD initJITState

/-- State after lowering prototype `g(u v)` with a cleared environment (used
to exhibit the environment invariant at a concrete input). -/
def gProtoRes : Res FnRef := protoCodegen (clearEnv initJITState) ⟨"g", ["u", "v"]⟩

end Toy


namespace Toy

/-! Theorems. -/

theorem skipSpaces_len_le : ∀ (lc : Int) (inp : List Char),
    (skipSpaces lc inp).2.length ≤ inp.length := by
  intro lc inp
  induction inp generalizing lc with
  | nil => simp [skipSpaces]; split <;> simp
  | cons c r ih =>
    simp only [skipSpaces]
    split
    · exact le_trans (ih _) (by simp)
    · simp

theorem readLineRest_lt : ∀ (inp : List Char) (lc' : Int) (inp' : List Char),
    readLineRest inp = (lc', inp') → lc' ≠ -1 → inp'.length < inp.length := by
  intro inp
  induction inp with
  | nil => intro lc' inp' h hne; simp [readLineRest] at h; exact absurd h.1.symm hne
  | cons c r ih =>
    intro lc' inp' h hne
    simp only [readLineRest] at h
    split at h
    · obtain ⟨h1, h2⟩ := Prod.mk.injEq .. ▸ h
      subst h2; simp
    · exact lt_trans (ih _ _ h hne) (by simp)

theorem gettokF_eof_lastChar : ∀ (fuel : Nat) (st st' : LexState),
    st.input.length < fuel → gettokF fuel st = (Tok.eof, st') → st'.lastChar = -1 := by
  intro fuel
  induction fuel with
  | zero => intro st st' h hg; exact absurd h (Nat.not_lt_zero _)
  | succ n ih =>
    intro st st' hlen h
    simp only [gettokF] at h
    obtain ⟨lc, inp, hski⟩ : ∃ lc inp, skipSpaces st.lastChar st.input = (lc, inp) :=
      ⟨_, _, rfl⟩
    rw [hski] at h
    simp only at h
    split at h
    · -- identifier branch: the returned token is never eof
      have h1 := congrArg Prod.fst h
      simp only at h1
      split at h1 <;> (try split at h1) <;> simp_all
    · split at h
      · -- number branch: the returned token is never eof
        have h1 := congrArg Prod.fst h
        simp at h1
      · split at h
        · -- comment branch
          obtain ⟨lc', inp', hrl⟩ : ∃ lc' inp', readLineRest inp = (lc', inp') :=
            ⟨_, _, rfl⟩
          rw [hrl] at h
          simp only at h
          split at h
          · rename_i hne
            have hinp : inp.length ≤ st.input.length := by
              have hs := skipSpaces_len_le st.lastChar st.input
              rw [hski] at hs
              exact hs
            have hlt : inp'.length < inp.length :=
              readLineRest_lt inp lc' inp' hrl (by simpa using hne)
            exact ih ⟨lc', inp'⟩ st' (by simp; omega) h
          · rename_i hne
            have hs2 : st' = ⟨lc', inp'⟩ := by
              have h2 := congrArg Prod.snd h
              simpa using h2.symm
            rw [hs2]
            simpa using hne
        · split at h
          · -- end-of-input branch
            rename_i hlc
            have hs2 : st' = ⟨lc, inp⟩ := by
              have h2 := congrArg Prod.snd h
              simpa using h2.symm
            rw [hs2]
            exact hlc
          · -- punctuation branch: the returned token is never eof
            have h1 := congrArg Prod.fst h
            simp at h1

theorem skipSpaces_not_space (lc : Int) (inp : List Char) (h : isSpaceI lc = false) :
    skipSpaces lc inp = (lc, inp) := by
  cases inp <;> simp [skipSpaces, h]

theorem gettok_eof_fixpoint (inp : List Char) :
    gettok ⟨-1, inp⟩ = (Tok.eof, ⟨-1, inp⟩) := by
  simp only [gettok, gettokF]
  rw [skipSpaces_not_space (-1) inp (by decide)]
  simp [isAlphaI, isDigitI]

/-- C9: once `gettok` has returned the end-of-input token, every subsequent
call returns the end-of-input token again (it also leaves the lexer state
unchanged), for every input character stream. -/
theorem gettok_eof_forever (st st' : LexState) (h : gettok st = (Tok.eof, st')) :
    ∀ n : Nat, (gettokN n st').1 = Tok.eof := by
  have hlc : st'.lastChar = -1 :=
    gettokF_eof_lastChar (st.input.length + 1) st st' (Nat.lt_succ_self _) h
  have hfix : gettok st' = (Tok.eof, st') := by
    have hst' : st' = ⟨-1, st'.input⟩ := by
      cases st'; simp_all
    rw [hst']
    exact gettok_eof_fixpoint st'.input
  intro n
  induction n with
  | zero => simp [gettokN, hfix]
  | succ m ih => simp only [gettokN, hfix]; exact ih

/-- Witness for C9 at the empty input. -/
theorem gettok_eof_forever_witness :
    (gettokN 3 ⟨-1, []⟩).1 = Tok.eof :=
  gettok_eof_forever ⟨32, []⟩ ⟨-1, []⟩ rfl 3


theorem addLog_namedValues (s : JITState) (m : String) :
    (addLog s m).namedValues = s.namedValues := rfl

theorem getFnScan_namedValues (s : JITState) (name : String) :
    ∀ (ms : List ModuleM) (i : Nat) (v : Option FnRef) (s' : JITState),
    getFnScan s name i ms = Res.ret v s' → s'.namedValues = s.namedValues := by
  intro ms
  induction ms with
  | nil =>
    intro i v s' h
    simp only [getFnScan] at h
    cases h
    rfl
  | cons m rest ih =>
    intro i v s' h
    simp only [getFnScan] at h
    split at h
    · exact ih (i + 1) v s' h
    · split at h
      · cases h; rfl
      · split at h
        · exact absurd h (by simp)
        · split at h
          · split at h
            · cases h; rfl
            · cases h; rfl
          · cases h; rfl

theorem getModuleForNewFunction_namedValues (s : JITState) :
    (getModuleForNewFunction s).2.namedValues = s.namedValues := by
  simp only [getModuleForNewFunction]
  split <;> rfl

theorem protoCodegen_env (s : JITState) (p : PrototypeAST) (fref : FnRef) (s₁ : JITState)
    (h : protoCodegen s p = Res.ret (some fref) s₁) :
    s₁.namedValues = bindParamsFrom s.namedValues p.args 0 := by
  simp only [protoCodegen] at h
  split at h
  · cases h
    simp [getModuleForNewFunction_namedValues]
  · split at h
    · exact absurd h (by simp)
    · exact absurd h (by simp)
    · rename_i fref' s₂ heq
      split at h
      · exact absurd h (by simp)
      · split at h
        · exact absurd h (by simp)
        · split at h
          · exact absurd h (by simp)
          · cases h
            have h₂ := getFnScan_namedValues _ _ _ _ _ _ heq
            split
            · simp [addLog_namedValues, h₂, getModuleForNewFunction_namedValues]
            · simp [h₂, getModuleForNewFunction_namedValues]

theorem bindParamsFrom_spec :
    ∀ (args : List String) (env : String → Option IRExpr) (i : Nat), args.Nodup →
    (∀ j (hj : j < args.length),
        bindParamsFrom env args i (args.get ⟨j, hj⟩) = some (IRExpr.arg (i + j)))
    ∧ (∀ v, v ∉ args → bindParamsFrom env args i v = env v) := by
  intro args
  induction args with
  | nil =>
    intro env i hnd
    refine ⟨fun j hj => absurd hj (by simp), fun v hv => rfl⟩
  | cons a rest ih =>
    intro env i hnd
    have hna : a ∉ rest := (List.nodup_cons.mp hnd).1
    have hrest : rest.Nodup := (List.nodup_cons.mp hnd).2
    have ihs := ih (fun n => if n = a then some (IRExpr.arg i) else env n) (i + 1) hrest
    constructor
    · intro j hj
      match j with
      | 0 =>
        simp only [List.get, bindParamsFrom]
        rw [ihs.2 a hna]
        simp
      | Nat.succ k =>
        have hk : k < rest.length := by
          have hlen : (a :: rest).length = rest.length + 1 := rfl
          omega
        simp only [List.get, bindParamsFrom]
        have hik := ihs.1 k hk
        rw [hik]
        have harith : i + 1 + k = i + (k + 1) := by omega
        rw [harith]
    · intro v hv
      have hva : v ≠ a := fun heq => hv (heq ▸ List.mem_cons_self a rest)
      have hvr : v ∉ rest := fun hm => hv (List.mem_cons_of_mem a hm)
      simp only [bindParamsFrom]
      rw [ihs.2 v hvr]
      simp [hva]


theorem modulesSetGetD (ls : List ModuleM) (i : Nat) (x : ModuleM) :
    (ls.set i x).getD i [] = if i < ls.length then x else [] := by
  by_cases h : i < ls.length
  · simp [List.getD_eq_getElem?_getD, List.getElem?_set_self, h]
  · have hlen : (ls.set i x).length ≤ i := by simp only [List.length_set]; omega
    simp [List.getD_eq_getElem?_getD, List.getElem?_eq_none hlen, h]

theorem moduleFind_filter_ne (m : ModuleM) (n : String) :
    moduleFind (m.filter fun f => f.name ≠ n) n = none := by
  rw [moduleFind, List.find?_eq_none]
  intro f hmem
  simp at hmem ⊢
  exact hmem.2

/-- C10: at the moment a function body begins lowering — after
`FunctionAST::Codegen` has cleared `NamedValues` (`clearEnv`) and the
prototype has lowered successfully — the variable environment binds exactly
the prototype's parameter names (the `j`-th name to the `j`-th argument
value) and nothing else, given that the parameter names are unique; in
particular no binding of a previously lowered function survives. -/
theorem env_at_body_start (s : JITState) (p : PrototypeAST) (fref : FnRef) (s₁ : JITState)
    (h : protoCodegen (clearEnv s) p = Res.ret (some fref) s₁) (hnd : p.args.Nodup) :
    (∀ j (hj : j < p.args.length),
        s₁.namedValues (p.args.get ⟨j, hj⟩) = some (IRExpr.arg j))
    ∧ (∀ v, v ∉ p.args → s₁.namedValues v = none) := by
  have henv := protoCodegen_env _ _ _ _ h
  have hspec := bindParamsFrom_spec p.args (clearEnv s).namedValues 0 hnd
  constructor
  · intro j hj
    rw [henv]
    have hj0 := hspec.1 j hj
    simpa using hj0
  · intro v hv
    rw [henv, hspec.2 v hv]
    rfl

/-- Witness for C10 at the prototype `g(u v)` lowered into a fresh
session. -/
theorem env_at_body_start_witness :
    (gProtoRes.stateD initJITState).namedValues "w" = none :=
  (env_at_body_start initJITState ⟨"g", ["u", "v"]⟩ (0, "g")
    (gProtoRes.stateD initJITState) rfl (by decide)).2 "w" (by decide)

/-- C7 (amended): lowering a BinaryOp lowers the left operand and then —
unconditionally — the right operand; only after both have been attempted
does it abort with a null result (before emitting any operation) when
either sub-lowering failed.  In particular the right operand is lowered
even when the left one failed. -/
theorem binary_codegen_aborts_after_both (s s₁ : JITState) (op : Char) (l r : ExprAST) :
    (codegenE s l = Res.ret none s₁ →
      codegenE s (ExprAST.binary op l r) =
        match codegenE s₁ r with
        | Res.crash => Res.crash
        | Res.ret _ s₂ => Res.ret none s₂)
    ∧ (∀ v s₂, codegenE s l = Res.ret (some v) s₁ → codegenE s₁ r = Res.ret none s₂ →
        codegenE s (ExprAST.binary op l r) = Res.ret none s₂) := by
  constructor
  · intro hl
    simp only [codegenE, hl]
  · intro v s₂ hl hr
    simp only [codegenE, hl, hr]

/-- Witness for C7 (amended) at `y + 1` with an empty environment. -/
theorem binary_codegen_aborts_after_both_witness :
    codegenE initJITState (ExprAST.binary '+' (ExprAST.var "y") (ExprAST.number 1)) =
      Res.ret none (addLog initJITState "Unknown variable name") :=
  (binary_codegen_aborts_after_both initJITState
      (addLog initJITState "Unknown variable name") '+'
      (ExprAST.var "y") (ExprAST.number 1)).1 rfl

/-- C7 counterexample: lowering `y + z` with an empty environment fails on
the left operand, yet the right operand is still lowered — the resulting
log carries the unknown-variable diagnostic twice, once per operand. -/
theorem binary_codegen_right_lowered_after_left_fails :
    c7Bin = Res.ret none
      ⟨[], none, [], 0, fun _ => none,
       ["Unknown variable name", "Unknown variable name"]⟩ := rfl

/-- C8: when a definition's body fails to lower, `FunctionAST::Codegen`
erases the partially created function from the open unit — afterwards the
unit holds no entry of that name, in particular none with a missing body —
and the whole definition fails (null result). -/
theorem functionCodegen_body_failure_erases (s : JITState) (fa : FunctionAST)
    (fref : FnRef) (s₁ s₂ : JITState)
    (hp : protoCodegen (clearEnv s) fa.proto = Res.ret (some fref) s₁)
    (hb : codegenE s₁ fa.body = Res.ret none s₂) :
    functionCodegen s fa = Res.ret none (eraseFn s₂ fref)
    ∧ moduleFind ((eraseFn s₂ fref).modules.getD fref.1 []) fref.2 = none := by
  constructor
  · simp only [functionCodegen, hp, hb]
  · simp only [eraseFn, modulesSetGetD]
    split
    · exact moduleFind_filter_ne _ _
    · rfl

/-- Witness for C8 at `def f(x) y` (body references the unknown variable
`y`) in a fresh session. -/
theorem functionCodegen_body_failure_erases_witness :
    functionCodegen initJITState fBadDef = Res.ret none (eraseFn fBadS2 (0, "f"))
    ∧ moduleFind ((eraseFn fBadS2 (0, "f")).modules.getD 0 []) "f" = none :=
  functionCodegen_body_failure_erases initJITState fBadDef (0, "f") fBadS1 fBadS2 rfl rfl



theorem curPrec_cons (t : Tok) (ts : List Tok) : curPrec (t :: ts) = getTokPrecedence t := rfl

theorem parseBinOpRHS_stop (fuel : Nat) (prec : Int) (lhs : ExprAST) (ts : List Tok)
    (h : curPrec ts < prec) :
    parseBinOpRHS (fuel + 1) prec lhs ts = some (lhs, ts) := by
  simp only [parseBinOpRHS]
  rw [if_pos h]

theorem parseBinOpRHS_step_flat (fuel : Nat) (prec p : Int) (lhs rhs : ExprAST)
    (op : Char) (rest rest₂ : List Tok)
    (hp : getTokPrecedence (Tok.punct op) = p) (hge : ¬ p < prec)
    (hprim : parsePrimary fuel rest = some (rhs, rest₂))
    (hnext : ¬ p < curPrec rest₂) :
    parseBinOpRHS (fuel + 1) prec lhs (Tok.punct op :: rest) =
      parseBinOpRHS fuel prec (ExprAST.binary op lhs rhs) rest₂ := by
  simp only [parseBinOpRHS, curPrec_cons, hp, hprim]
  rw [if_neg hge, if_neg hnext]

theorem parseBinOpRHS_step_climb (fuel : Nat) (prec p : Int) (lhs rhs rhs' : ExprAST)
    (op : Char) (rest rest₂ rest₃ : List Tok)
    (hp : getTokPrecedence (Tok.punct op) = p) (hge : ¬ p < prec)
    (hprim : parsePrimary fuel rest = some (rhs, rest₂))
    (hnext : p < curPrec rest₂)
    (hin : parseBinOpRHS fuel (p + 1) rhs rest₂ = some (rhs', rest₃)) :
    parseBinOpRHS (fuel + 1) prec lhs (Tok.punct op :: rest) =
      parseBinOpRHS fuel prec (ExprAST.binary op lhs rhs') rest₃ := by
  simp only [parseBinOpRHS, curPrec_cons, hp, hprim]
  rw [if_neg hge, if_pos hnext, hin]

theorem parseBinOpRHS_chain (p : Int) :
    ∀ (pairs : List (Char × ℚ)) (prec : Int) (lhs : ExprAST) (rest : List Tok) (fuel : Nat),
    (∀ pr ∈ pairs, getTokPrecedence (Tok.punct pr.1) = p) →
    prec ≤ p → curPrec rest < prec → pairs.length + 1 ≤ fuel →
    parseBinOpRHS fuel prec lhs (chainToks pairs ++ rest) =
      some (chainFold lhs pairs, rest) := by
  intro pairs
  induction pairs with
  | nil =>
    intro prec lhs rest fuel hall hle hrest hfuel
    obtain ⟨g, rfl⟩ : ∃ g, fuel = g + 1 := ⟨fuel - 1, by omega⟩
    simp only [chainToks, List.flatMap_nil, List.nil_append, chainFold, List.foldl_nil]
    exact parseBinOpRHS_stop g prec lhs rest hrest
  | cons pr ps ih =>
    intro prec lhs rest fuel hall hle hrest hfuel
    have hfl : (pr :: ps).length + 1 = ps.length + 2 := by simp
    obtain ⟨g, rfl⟩ : ∃ g, fuel = g + 2 := ⟨fuel - 2, by omega⟩
    have hp : getTokPrecedence (Tok.punct pr.1) = p := hall pr (List.mem_cons_self _ _)
    have hsplit : chainToks (pr :: ps) ++ rest =
        Tok.punct pr.1 :: (Tok.num pr.2 :: (chainToks ps ++ rest)) := by
      simp [chainToks]
    have hprim : parsePrimary (g + 1) (Tok.num pr.2 :: (chainToks ps ++ rest)) =
        some (ExprAST.number pr.2, chainToks ps ++ rest) := by
      simp [parsePrimary]
    have hnext : ¬ p < curPrec (chainToks ps ++ rest) := by
      cases ps with
      | nil =>
        simp only [chainToks, List.flatMap_nil, List.nil_append]
        omega
      | cons q qs =>
        have hq : curPrec (chainToks (q :: qs) ++ rest) = p := by
          have hqp := hall q (List.mem_cons_of_mem _ (List.mem_cons_self _ _))
          simp [chainToks, curPrec, hqp]
        omega
    rw [hsplit, parseBinOpRHS_step_flat (g + 1) prec p lhs (ExprAST.number pr.2) pr.1 _ _
      hp (by omega) hprim hnext]
    have hrec := ih prec (ExprAST.binary pr.1 lhs (ExprAST.number pr.2)) rest (g + 1)
      (fun q hq => hall q (List.mem_cons_of_mem _ hq)) hle hrest (by simp at hfuel; omega)
    rw [hrec]
    simp [chainFold]

/-- C3: parsing `1-2-3` produces `(1-2)-3`, and in general the
precedence-climbing loop groups every chain of equal-precedence binary
operators over number literals left-associatively: starting from any
left-hand side, with any minimum precedence at most the chain's precedence
and any continuation that does not parse as a further operator at this
level, the result is the left fold. -/
theorem parse_left_assoc_equal_prec :
    parseExpression 20 (tokens "1-2-3") =
      some (ExprAST.binary '-'
              (ExprAST.binary '-' (ExprAST.number 1) (ExprAST.number 2))
              (ExprAST.number 3), [Tok.eof])
    ∧ ∀ (p : Int) (pairs : List (Char × ℚ)) (prec : Int) (lhs : ExprAST)
        (rest : List Tok) (fuel : Nat),
        (∀ pr ∈ pairs, getTokPrecedence (Tok.punct pr.1) = p) →
        prec ≤ p → curPrec rest < prec → pairs.length + 1 ≤ fuel →
        parseBinOpRHS fuel prec lhs (chainToks pairs ++ rest) =
          some (chainFold lhs pairs, rest) :=
  ⟨rfl, parseBinOpRHS_chain⟩

/-- Witness for C3's general part at the chain `1 - 2 - 3` itself. -/
theorem parse_left_assoc_equal_prec_witness :
    parseBinOpRHS 3 0 (ExprAST.number 1)
        (chainToks [('-', 2), ('-', 3)] ++ [Tok.eof]) =
      some (chainFold (ExprAST.number 1) [('-', 2), ('-', 3)], [Tok.eof]) :=
  parse_left_assoc_equal_prec.2 30 [('-', 2), ('-', 3)] 0 (ExprAST.number 1) [Tok.eof] 3
    (by decide) (by decide) (by decide) (by decide)

theorem parseBinOpRHS_absorbs_tighter (prec p1 p2 : Int) (lhs : ExprAST) (op1 op2 : Char)
    (b c : ℚ) (rest : List Tok) (fuel : Nat)
    (hp1 : getTokPrecedence (Tok.punct op1) = p1)
    (hp2 : getTokPrecedence (Tok.punct op2) = p2)
    (hle : prec ≤ p1) (hlt : p1 < p2) (hrest : curPrec rest < prec) (hfuel : 4 ≤ fuel) :
    parseBinOpRHS fuel prec lhs
        (Tok.punct op1 :: Tok.num b :: Tok.punct op2 :: Tok.num c :: rest) =
      some (ExprAST.binary op1 lhs
              (ExprAST.binary op2 (ExprAST.number b) (ExprAST.number c)), rest) := by
  obtain ⟨g, rfl⟩ : ∃ g, fuel = g + 4 := ⟨fuel - 4, by omega⟩
  have hprim1 : parsePrimary (g + 3) (Tok.num b :: Tok.punct op2 :: Tok.num c :: rest) =
      some (ExprAST.number b, Tok.punct op2 :: Tok.num c :: rest) := by
    simp [parsePrimary]
  have hnext1 : p1 < curPrec (Tok.punct op2 :: Tok.num c :: rest) := by
    simpa [curPrec, hp2] using hlt
  have hprim2 : parsePrimary (g + 2) (Tok.num c :: rest) =
      some (ExprAST.number c, rest) := by
    simp [parsePrimary]
  have hinner : parseBinOpRHS (g + 3) (p1 + 1) (ExprAST.number b)
      (Tok.punct op2 :: Tok.num c :: rest) =
      some (ExprAST.binary op2 (ExprAST.number b) (ExprAST.number c), rest) := by
    rw [parseBinOpRHS_step_flat (g + 2) (p1 + 1) p2 _ _ op2 _ _ hp2 (by omega) hprim2
      (by omega)]
    exact parseBinOpRHS_stop (g + 1) (p1 + 1) _ rest (by omega)
  rw [parseBinOpRHS_step_climb (g + 3) prec p1 lhs (ExprAST.number b) _ op1 _ _ rest hp1
    (by omega) hprim1 hnext1 hinner]
  exact parseBinOpRHS_stop (g + 2) prec _ rest hrest

/-- C2: parsing `1+2*3` produces `1+(2*3)` under the fixed precedence table
(`<`→10, `+`→20, `-`→30, `*`→40), and in general, when the operator
following a right-hand number primary binds strictly tighter than the
operator just consumed, the precedence-climbing loop absorbs it into the
right-hand side before combining. -/
theorem parse_mul_binds_tighter :
    parseExpression 20 (tokens "1+2*3") =
      some (ExprAST.binary '+' (ExprAST.number 1)
              (ExprAST.binary '*' (ExprAST.number 2) (ExprAST.number 3)), [Tok.eof])
    ∧ ∀ (prec p1 p2 : Int) (lhs : ExprAST) (op1 op2 : Char) (b c : ℚ)
        (rest : List Tok) (fuel : Nat),
        getTokPrecedence (Tok.punct op1) = p1 →
        getTokPrecedence (Tok.punct op2) = p2 →
        prec ≤ p1 → p1 < p2 → curPrec rest < prec → 4 ≤ fuel →
        parseBinOpRHS fuel prec lhs
            (Tok.punct op1 :: Tok.num b :: Tok.punct op2 :: Tok.num c :: rest) =
          some (ExprAST.binary op1 lhs
                  (ExprAST.binary op2 (ExprAST.number b) (ExprAST.number c)), rest) :=
  ⟨rfl, fun prec p1 p2 lhs op1 op2 b c rest fuel h1 h2 h3 h4 h5 h6 =>
    parseBinOpRHS_absorbs_tighter prec p1 p2 lhs op1 op2 b c rest fuel h1 h2 h3 h4 h5 h6⟩

/-- Witness for C2's general part at `+ 2 * 3` after the left-hand side
`1`. -/
theorem parse_mul_binds_tighter_witness :
    parseBinOpRHS 4 0 (ExprAST.number 1)
        [Tok.punct '+', Tok.num 2, Tok.punct '*', Tok.num 3, Tok.eof] =
      some (ExprAST.binary '+' (ExprAST.number 1)
              (ExprAST.binary '*' (ExprAST.number 2) (ExprAST.number 3)), [Tok.eof]) :=
  parse_mul_binds_tighter.2 0 20 40 (ExprAST.number 1) '+' '*' 2 3 [Tok.eof] 4
    (by decide) (by decide) (by decide) (by decide) (by decide) (by decide)



/-- C5 (the code at the claim's failing input): lowering the prototype
`foo(a)` while the open unit already holds the body-less two-parameter
declaration `foo(x y)` takes the renamed-collision path, logs the
arity-mismatch diagnostic — but, the early return after `ErrorF` being
absent in the source, still falls through and returns the existing function
object: lowering does not fail. -/
theorem proto_arity_mismatch_still_returns :
    fooRedecl1.ok = true
    ∧ fooRedecl1.val = some (0, "foo")
    ∧ (fooRedecl1.stateD initJITState).log =
        ["redefinition of function with different # args"] :=
  ⟨rfl, rfl, rfl⟩

/-- C1: in a fresh session, `def testfunc(x) x*x` parses and lowers into a
first unit; running the bare expression `testfunc(4)` parses, lowers,
closes and finalizes that unit, and evaluates to `16`; running
`testfunc(4)` again lowers the call into a newly opened second unit whose
`testfunc` entry is a body-less external declaration (the callee's body is
not re-lowered), the unit history finalizes both units in order, and the
call again evaluates to `16` — the same value as the single-unit run. -/
theorem cross_unit_call_same_value :
    parseDefinition 20 (tokens "def testfunc(x) x*x") = some (tfDef, [Tok.eof])
    ∧ parseTopLevelExpr 20 (tokens "testfunc(4)") = some (tfCall, [Tok.eof])
    ∧ (functionCodegen initJITState tfDef).ok = true
    ∧ tfS2.openIdx = none ∧ tfS2.engines = [0]
    ∧ tfRun1.val = some (some 16)
    ∧ tfRun2.val = some (some 16)
    ∧ moduleFind (tfS3.modules.getD 1 []) "testfunc" = some ⟨"testfunc", 1, none⟩
    ∧ tfS3.engines = [0, 1] := by
  refine ⟨rfl, rfl, rfl, rfl, rfl, ?_, ?_, rfl, rfl⟩
  · rw [show tfRun1.val = some (evalIR
        [[⟨"testfunc", 1, some (IRExpr.fmul (IRExpr.arg 0) (IRExpr.arg 0))⟩,
          ⟨"anon_func_1", 0, some (IRExpr.callInst "testfunc" [IRExpr.constFP 4])⟩]]
        [0] 8 0 [] (IRExpr.callInst "testfunc" [IRExpr.constFP 4])) from rfl]
    simp [evalIR, evalIRArgs, resolveCall, moduleFind]
    norm_num
  · rw [show tfRun2.val = some (evalIR
        [[⟨"testfunc", 1, some (IRExpr.fmul (IRExpr.arg 0) (IRExpr.arg 0))⟩,
          ⟨"anon_func_1", 0, some (IRExpr.callInst "testfunc" [IRExpr.constFP 4])⟩],
         [⟨"anon_func_2", 0, some (IRExpr.callInst "testfunc" [IRExpr.constFP 4])⟩,
          ⟨"testfunc", 1, none⟩]]
        [0, 1] 8 1 [] (IRExpr.callInst "testfunc" [IRExpr.constFP 4])) from rfl]
    simp [evalIR, evalIRArgs, resolveCall, moduleFind]
    norm_num



theorem getFnScan_skip (s : JITState) (name : String) :
    ∀ (ms : List ModuleM) (i : Nat),
    (∀ m ∈ ms, moduleFind m name = none) →
    ∀ (ms₂ : List ModuleM),
    getFnScan s name i (ms ++ ms₂) = getFnScan s name (i + ms.length) ms₂ := by
  intro ms
  induction ms with
  | nil => intro i hall ms₂; simp
  | cons m rest ih =>
    intro i hall ms₂
    have hm : moduleFind m name = none := hall m (List.mem_cons_self _ _)
    simp only [List.cons_append, getFnScan, hm, List.append_eq]
    rw [ih (i + 1) (fun m' hm' => hall m' (List.mem_cons_of_mem _ hm')) ms₂]
    congr 1
    simp [List.length_cons]
    omega

theorem getFnScan_hit (s : JITState) (name : String) (k : Nat) (f : Fn)
    (mk : ModuleM) (post : List ModuleM) (hmk : moduleFind mk name = some f) :
    getFnScan s name k (mk :: post) =
      if s.openIdx = some k then Res.ret (some (k, name)) s
      else
        match s.openIdx with
        | none => Res.crash
        | some oi =>
          match moduleFind (s.modules.getD oi []) name with
          | some pf =>
            if pf.body.isSome then
              Res.ret none (addLog s "redefinition of function across modules")
            else Res.ret (some (oi, name)) s
          | none =>
            Res.ret (some (oi, name))
              {s with modules :=
                s.modules.set oi ((s.modules.getD oi []) ++ [(⟨name, f.arity, none⟩ : Fn)])} := by
  simp only [getFnScan, hmk]

theorem getFunctionJIT_reach_hit (s : JITState) (name : String) (pre post : List ModuleM)
    (mk : ModuleM) (f : Fn)
    (hmods : s.modules = pre ++ mk :: post)
    (hpre : ∀ m ∈ pre, moduleFind m name = none)
    (hmk : moduleFind mk name = some f) :
    getFunctionJIT s name = getFnScan s name pre.length (mk :: post) := by
  show getFnScan s name 0 s.modules = _
  conv_lhs => rw [hmods]
  rw [getFnScan_skip s name pre 0 hpre (mk :: post), Nat.zero_add]

theorem moduleFind_append_none (m m₂ : ModuleM) (name : String)
    (h : moduleFind m name = none) :
    moduleFind (m ++ m₂) name = moduleFind m₂ name := by
  induction m with
  | nil => simp [moduleFind]
  | cons f rest ih =>
    by_cases hf : f.name = name
    · exfalso
      rw [moduleFind, List.find?_cons_of_pos _ (by simp [hf])] at h
      simp at h
    · rw [moduleFind, List.find?_cons_of_neg _ (by simp [hf])] at h
      rw [List.cons_append, moduleFind, List.find?_cons_of_neg _ (by simp [hf])]
      exact ih h

/-- C6 (amended): `MCJITHelper::getFunction` scans the unit history oldest
to newest. If the name is first found at the open unit it is returned
directly, with no state change. If it is first found in a closed unit and
a unit is open, then: an existing body-less entry of that name in the open
unit is reused; an existing entry with a body makes the lookup fail with
the cross-module redefinition diagnostic; with no entry, a matching
(same-arity) external declaration is appended to the open unit and
returned. If the name is first found in a closed unit and no unit is open,
the function does not open one: it asserts (modelled as a crash, see the
counterexample). If the name is in no unit, the lookup returns null with
the state unchanged. -/
theorem lookup_function_cases (s : JITState) (name : String) :
    (∀ (pre post : List ModuleM) (mk : ModuleM) (f : Fn),
      s.modules = pre ++ mk :: post →
      (∀ m ∈ pre, moduleFind m name = none) →
      moduleFind mk name = some f →
      s.openIdx = some pre.length →
      getFunctionJIT s name = Res.ret (some (pre.length, name)) s)
    ∧ (∀ (pre post : List ModuleM) (mk : ModuleM) (f : Fn) (oi : Nat) (pf : Fn),
      s.modules = pre ++ mk :: post →
      (∀ m ∈ pre, moduleFind m name = none) →
      moduleFind mk name = some f →
      s.openIdx = some oi → pre.length ≠ oi →
      moduleFind (s.modules.getD oi []) name = some pf → pf.body = none →
      getFunctionJIT s name = Res.ret (some (oi, name)) s)
    ∧ (∀ (pre post : List ModuleM) (mk : ModuleM) (f : Fn) (oi : Nat) (pf : Fn) (b : IRExpr),
      s.modules = pre ++ mk :: post →
      (∀ m ∈ pre, moduleFind m name = none) →
      moduleFind mk name = some f →
      s.openIdx = some oi → pre.length ≠ oi →
      moduleFind (s.modules.getD oi []) name = some pf → pf.body = some b →
      getFunctionJIT s name =
        Res.ret none (addLog s "redefinition of function across modules"))
    ∧ (∀ (pre post : List ModuleM) (mk : ModuleM) (f : Fn) (oi : Nat),
      s.modules = pre ++ mk :: post →
      (∀ m ∈ pre, moduleFind m name = none) →
      moduleFind mk name = some f →
      s.openIdx = some oi → pre.length ≠ oi → oi < s.modules.length →
      moduleFind (s.modules.getD oi []) name = none →
      getFunctionJIT s name =
        Res.ret (some (oi, name))
          {s with modules :=
            s.modules.set oi ((s.modules.getD oi []) ++ [(⟨name, f.arity, none⟩ : Fn)])}
      ∧ fnAt {s with modules :=
            s.modules.set oi ((s.modules.getD oi []) ++ [(⟨name, f.arity, none⟩ : Fn)])}
          (oi, name) = some ⟨name, f.arity, none⟩)
    ∧ ((∀ m ∈ s.modules, moduleFind m name = none) →
      getFunctionJIT s name = Res.ret none s) := by
  refine ⟨?_, ?_, ?_, ?_, ?_⟩
  · intro pre post mk f hmods hpre hmk hopen
    rw [getFunctionJIT_reach_hit s name pre post mk f hmods hpre hmk,
      getFnScan_hit s name pre.length f mk post hmk, if_pos hopen]
  · intro pre post mk f oi pf hmods hpre hmk hopen hne hpf hbody
    rw [getFunctionJIT_reach_hit s name pre post mk f hmods hpre hmk,
      getFnScan_hit s name pre.length f mk post hmk,
      if_neg (by rw [hopen]; simp; omega)]
    rw [hopen]
    simp only [hpf, hbody, Option.isSome_none, Bool.false_eq_true, if_false]
  · intro pre post mk f oi pf b hmods hpre hmk hopen hne hpf hbody
    rw [getFunctionJIT_reach_hit s name pre post mk f hmods hpre hmk,
      getFnScan_hit s name pre.length f mk post hmk,
      if_neg (by rw [hopen]; simp; omega)]
    rw [hopen]
    simp only [hpf, hbody, Option.isSome_some, if_true]
  · intro pre post mk f oi hmods hpre hmk hopen hne hoi hpf
    constructor
    · rw [getFunctionJIT_reach_hit s name pre post mk f hmods hpre hmk,
        getFnScan_hit s name pre.length f mk post hmk,
        if_neg (by rw [hopen]; simp; omega)]
      rw [hopen]
      simp only [hpf]
    · show moduleFind ((s.modules.set oi _).getD oi []) name = _
      rw [modulesSetGetD, if_pos hoi, moduleFind_append_none _ _ _ hpf]
      simp [moduleFind, List.find?]
  · intro hall
    show getFnScan s name 0 s.modules = _
    conv_lhs => rw [← List.append_nil s.modules]
    rw [getFnScan_skip s name s.modules 0 hall []]
    rfl

/-- C6 counterexample: with `foo` defined in a closed, finalized unit and
no unit open, the lookup does not open a new unit and return a declaration
— it fails its `assert(OpenModule != NULL)` (a null dereference with
assertions disabled), modelled as a crash. -/
theorem lookup_no_open_unit_crashes :
    getFunctionJIT closedFooState "foo" = Res.crash := rfl

/-- Witness for C6 (amended), exercising the direct-return case on a
one-unit state whose open unit declares `h`. -/
theorem lookup_function_cases_witness :
    getFunctionJIT ((protoCodegen initJITState ⟨"h", ["x"]⟩).stateD initJITState) "h" =
      Res.ret (some (0, "h")) ((protoCodegen initJITState ⟨"h", ["x"]⟩).stateD initJITState) :=
  (lookup_function_cases ((protoCodegen initJITState ⟨"h", ["x"]⟩).stateD initJITState) "h").1
    [] [] [⟨"h", 1, none⟩] ⟨"h", 1, none⟩ rfl (by simp) rfl rfl



theorem makeLegal_nonempty (name : String) (c : Nat) (hname : name ≠ "")
    (hleg : legalizeName name = name) :
    makeLegalFunctionName name c = (name, c) := by
  simp [makeLegalFunctionName, hname, hleg]

theorem getD_eq_get (l : List ModuleM) (i : Nat) (h : i < l.length) :
    l.getD i [] = l.get ⟨i, h⟩ := by
  simp [List.getD_eq_getElem?_getD, List.getElem?_eq_getElem, h]

theorem getFnScan_only_at (s : JITState) (name : String) (mi : Nat)
    (hopen : s.openIdx = some mi) :
    ∀ (ms : List ModuleM) (i : Nat),
    (∀ j (hj : j < ms.length), i + j ≠ mi → moduleFind (ms.get ⟨j, hj⟩) name = none) →
    (∀ j (hj : j < ms.length), i + j = mi →
        ∃ f, moduleFind (ms.get ⟨j, hj⟩) name = some f) →
    (∃ j, ∃ (hj : j < ms.length), i + j = mi) →
    getFnScan s name i ms = Res.ret (some (mi, name)) s := by
  intro ms
  induction ms with
  | nil =>
    intro i h1 h2 hex
    obtain ⟨j, hj, _⟩ := hex
    exact absurd hj (by simp)
  | cons m rest ih =>
    intro i h1 h2 hex
    by_cases hi : i = mi
    · obtain ⟨f, hf⟩ := h2 0 (by simp) (by omega)
      simp only [List.get] at hf
      simp only [getFnScan, hf]
      rw [if_pos (by rw [hopen, hi])]
      rw [hi]
    · have hm : moduleFind m name = none := by
        have := h1 0 (by simp) (by omega)
        simpa [List.get] using this
      simp only [getFnScan, hm]
      apply ih (i + 1)
      · intro j hj hne
        have := h1 (j + 1) (by simp; omega) (by omega)
        simpa [List.get] using this
      · intro j hj heq
        have := h2 (j + 1) (by simp; omega) (by omega)
        simpa [List.get] using this
      · obtain ⟨j, hj, heq⟩ := hex
        match j, hj, heq with
        | 0, hj, heq => exact absurd heq hi
        | j + 1, hj, heq =>
          exact ⟨j, by simp at hj; omega, by omega⟩

theorem moduleFind_getD_fresh (ls : List ModuleM) (name : String)
    (hfresh : ∀ m ∈ ls, moduleFind m name = none) (j : Nat) :
    moduleFind (ls.getD j []) name = none := by
  by_cases hj : j < ls.length
  · rw [getD_eq_get ls j hj]
    exact hfresh _ (List.get_mem ls j hj)
  · rw [List.getD_eq_default]
    · rfl
    · omega

theorem getD_set_ne (ls : List ModuleM) (i j : Nat) (x : ModuleM) (h : j ≠ i) :
    (ls.set i x).getD j [] = ls.getD j [] := by
  simp [List.getD_eq_getElem?_getD, List.getElem?_set_ne (show i ≠ j from fun he => h he.symm)]

theorem getD_append_singleton_ne (ls : List ModuleM) (x : ModuleM) (j : Nat)
    (h : j ≠ ls.length) :
    (ls ++ [x]).getD j [] = ls.getD j [] := by
  by_cases hj : j < ls.length
  · simp [List.getD_eq_getElem?_getD, List.getElem?_append_left hj]
  · rw [List.getD_eq_default, List.getD_eq_default]
    · omega
    · simp [List.length_append]
      omega

theorem protoCodegen_collision_open (s : JITState) (name : String) (args : List String)
    (mi : Nat) (f : Fn)
    (hname : name ≠ "") (hleg : legalizeName name = name)
    (hopen : s.openIdx = some mi) (hmi : mi < s.modules.length)
    (hhit : moduleFind (s.modules.getD mi []) name = some f)
    (hothers : ∀ j, j ≠ mi → moduleFind (s.modules.getD j []) name = none) :
    protoCodegen s ⟨name, args⟩ =
      if f.body.isSome then Res.ret none (addLog s "redefinition of function")
      else
        let s3 := if f.arity ≠ args.length then
                    addLog s "redefinition of function with different # args"
                  else s
        if f.arity < args.length then Res.crash
        else Res.ret (some (mi, name))
               {s3 with namedValues := bindParamsFrom s3.namedValues args 0} := by
  have hmk := makeLegal_nonempty name s.anonCounter hname hleg
  have hscan : getFunctionJIT s name = Res.ret (some (mi, name)) s := by
    show getFnScan s name 0 s.modules = _
    apply getFnScan_only_at s name mi hopen s.modules 0
    · intro j hj hne
      rw [← getD_eq_get s.modules j hj]
      exact hothers j (by omega)
    · intro j hj heq
      have hj' : j = mi := by omega
      subst hj'
      exact ⟨f, by rw [← getD_eq_get s.modules j hj]; exact hhit⟩
    · exact ⟨mi, hmi, by omega⟩
  simp only [protoCodegen, hmk, getModuleForNewFunction, hopen, hhit]
  have hs' : (⟨s.modules, some mi, s.engines, s.anonCounter, s.namedValues, s.log⟩ : JITState) = s := by
    rw [← hopen]
  rw [hs', hscan]
  simp only [fnAt, hhit]

theorem moduleFind_singleton (name : String) (f : Fn) (hf : f.name = name) :
    moduleFind [f] name = some f := by
  simp [moduleFind, List.find?, hf]

theorem protoCodegen_fresh_create (s : JITState) (name : String) (args : List String)
    (hname : name ≠ "") (hleg : legalizeName name = name)
    (hwf : ∀ oi, s.openIdx = some oi → oi < s.modules.length)
    (hfresh : ∀ m ∈ s.modules, moduleFind m name = none) :
    ∃ mi s₂, protoCodegen s ⟨name, args⟩ = Res.ret (some (mi, name)) s₂
      ∧ s₂.openIdx = some mi
      ∧ mi < s₂.modules.length
      ∧ moduleFind (s₂.modules.getD mi []) name = some ⟨name, args.length, none⟩
      ∧ ∀ j, j ≠ mi → moduleFind (s₂.modules.getD j []) name = none := by
  have hmk := makeLegal_nonempty name s.anonCounter hname hleg
  cases hopen : s.openIdx with
  | none =>
    refine ⟨s.modules.length,
      ⟨(s.modules ++ [[]]).set s.modules.length ([] ++ [(⟨name, args.length, none⟩ : Fn)]),
       some s.modules.length, s.engines, s.anonCounter + 1,
       bindParamsFrom s.namedValues args 0, s.log⟩, ?_, ?_, ?_, ?_, ?_⟩
    · simp only [protoCodegen, hmk, getModuleForNewFunction, hopen]
      have hgetD : (s.modules ++ [([] : ModuleM)]).getD s.modules.length ([] : ModuleM)
          = ([] : ModuleM) := by
        simp [List.getD_eq_getElem?_getD, List.getElem?_concat_length]
      rw [hgetD]
      have hfind0 : moduleFind ([] : ModuleM) name = none := rfl
      rw [hfind0]
    · simp
    · simp [List.length_set]
    · rw [modulesSetGetD, if_pos (by simp [List.length_append])]
      exact moduleFind_singleton name _ rfl
    · intro j hne
      show moduleFind (((s.modules ++ [[]]).set s.modules.length _).getD j []) name = none
      rw [getD_set_ne _ _ _ _ hne, getD_append_singleton_ne _ _ _ hne]
      exact moduleFind_getD_fresh s.modules name hfresh j
  | some oi =>
    have hoi : oi < s.modules.length := hwf oi hopen
    have hm : moduleFind (s.modules.getD oi []) name = none :=
      moduleFind_getD_fresh s.modules name hfresh oi
    refine ⟨oi,
      ⟨s.modules.set oi ((s.modules.getD oi []) ++ [(⟨name, args.length, none⟩ : Fn)]),
       some oi, s.engines, s.anonCounter,
       bindParamsFrom s.namedValues args 0, s.log⟩, ?_, ?_, ?_, ?_, ?_⟩
    · simp only [protoCodegen, hmk, getModuleForNewFunction, hopen]
      have hs' : (⟨s.modules, some oi, s.engines, s.anonCounter, s.namedValues, s.log⟩ : JITState) = s := by
        rw [← hopen]
      rw [hs', hm]
    · rfl
    · simpa [List.length_set] using hoi
    · rw [modulesSetGetD, if_pos hoi, moduleFind_append_none _ _ _ hm]
      exact moduleFind_singleton name _ rfl
    · intro j hne
      show moduleFind ((s.modules.set oi _).getD j []) name = none
      rw [getD_set_ne _ _ _ _ hne]
      exact moduleFind_getD_fresh s.modules name hfresh j


/-- C4 (amended): redeclaration is idempotent — for every valid prototype
with a nonempty, symbol-legal, not yet used name, lowering it twice with an
identical signature before any body is supplied succeeds both times — and
lowering a second body for a name whose existing body lives in the
currently open unit fails with the "redefinition of function" conflict.
(As stated the claim is false: when the unit holding the first body has
been closed, a second definition lowers into a fresh unit and succeeds
silently — see the counterexample.) -/
theorem redeclare_idempotent_redefine_fails :
    (∀ (s : JITState) (name : String) (args : List String),
      name ≠ "" → legalizeName name = name →
      (∀ oi, s.openIdx = some oi → oi < s.modules.length) →
      (∀ m ∈ s.modules, moduleFind m name = none) →
      ∃ mi s₂ s₃, protoCodegen s ⟨name, args⟩ = Res.ret (some (mi, name)) s₂
        ∧ protoCodegen s₂ ⟨name, args⟩ = Res.ret (some (mi, name)) s₃)
    ∧ (∀ (s : JITState) (name : String) (args : List String) (body : ExprAST)
        (mi : Nat) (f : Fn) (b : IRExpr),
      name ≠ "" → legalizeName name = name →
      s.openIdx = some mi → mi < s.modules.length →
      moduleFind (s.modules.getD mi []) name = some f → f.body = some b →
      (∀ j, j ≠ mi → moduleFind (s.modules.getD j []) name = none) →
      functionCodegen s ⟨⟨name, args⟩, body⟩ =
        Res.ret none (addLog (clearEnv s) "redefinition of function")) := by
  constructor
  · intro s name args hname hleg hwf hfresh
    obtain ⟨mi, s₂, h1, hopen, hmi, hhit, hothers⟩ :=
      protoCodegen_fresh_create s name args hname hleg hwf hfresh
    have h2 := protoCodegen_collision_open s₂ name args mi ⟨name, args.length, none⟩
      hname hleg hopen hmi hhit hothers
    simp only [Option.isSome_none, Bool.false_eq_true, if_false, ne_eq,
      not_true_eq_false, lt_self_iff_false, ite_false] at h2
    exact ⟨mi, s₂, _, h1, h2⟩
  · intro s name args body mi f b hname hleg hopen hmi hhit hbody hothers
    have hp := protoCodegen_collision_open (clearEnv s) name args mi f hname hleg
      (by simpa [clearEnv] using hopen) (by simpa [clearEnv] using hmi)
      (by simpa [clearEnv] using hhit)
      (fun j hj => by simpa [clearEnv] using hothers j hj)
    rw [if_pos (by simp [hbody])] at hp
    simp only [functionCodegen, hp]

/-- C4 counterexample: after `testfunc`'s body has been lowered and its
unit closed and finalized (state `tfS2`), lowering a second body for
`testfunc` succeeds silently — no redefinition conflict, no diagnostic. -/
theorem second_body_after_close_succeeds :
    (functionCodegen tfS2 ⟨⟨"testfunc", ["y"]⟩, ExprAST.var "y"⟩).ok = true
    ∧ ((functionCodegen tfS2 ⟨⟨"testfunc", ["y"]⟩, ExprAST.var "y"⟩).stateD initJITState).log
        = [] :=
  ⟨rfl, rfl⟩

/-- Witness for C4 (amended): the double declaration of `foo(x)` in a fresh
session, and the rejected second body for `testfunc` while its unit is
still open. -/
theorem redeclare_idempotent_redefine_fails_witness :
    (∃ mi s₂ s₃, protoCodegen initJITState ⟨"foo", ["x"]⟩ = Res.ret (some (mi, "foo")) s₂
        ∧ protoCodegen s₂ ⟨"foo", ["x"]⟩ = Res.ret (some (mi, "foo")) s₃)
    ∧ functionCodegen tfS1 ⟨⟨"testfunc", ["z"]⟩, ExprAST.var "z"⟩ =
        Res.ret none (addLog (clearEnv tfS1) "redefinition of function") := by
  constructor
  · exact redeclare_idempotent_redefine_fails.1 initJITState "foo" ["x"] (by decide) rfl
      (fun oi h => by simp [initJITState] at h) (fun m hm => by simp [initJITState] at hm)
  · exact redeclare_idempotent_redefine_fails.2 tfS1 "testfunc" ["z"] (ExprAST.var "z")
      0 ⟨"testfunc", 1, some (IRExpr.fmul (IRExpr.arg 0) (IRExpr.arg 0))⟩
      (IRExpr.fmul (IRExpr.arg 0) (IRExpr.arg 0))
      (by decide) rfl rfl (by decide) rfl rfl
      (fun j hj => by
        have hlen : tfS1.modules.length = 1 := rfl
        rw [List.getD_eq_default]
        · rfl
        · omega)


end Toy